import Mathlib

set_option maxRecDepth 40000

/-!
Shallow embedding of the colliding-blocks physics simulation
(`src/main.py`, class `PhysicsEngine` and the engine-construction part of
`App.reset_simulation`).

Real numbers of the Python source are modelled by `ℚ`; the value
`float('inf')` used for the event times `t_wall` / `t_block` is modelled by
`Option ℚ` with `none` standing for `+infinity`.  The `while` loop inside
`PhysicsEngine.step` is modelled with an explicit fuel parameter; running out
of fuel yields `none`, and termination of the loop is proved separately.
-/

/-- State of the simulation: the fields of the Python class `PhysicsEngine`. -/
structure PhysicsEngine where
  m1 : ℚ
  m2 : ℚ
  x1 : ℚ
  x2 : ℚ
  w1 : ℚ
  w2 : ℚ
  v1 : ℚ
  v2 : ℚ
  collisions : ℕ
  finished : Bool
  deriving Repr, DecidableEq

namespace PhysicsEngine

/-- `PhysicsEngine.__init__`: the fixed design constants of the source. -/
def init (mass_large velocity_large : ℚ) : PhysicsEngine :=
  { m1 := mass_large
    m2 := 1
    x1 := 400
    x2 := 200
    w1 := 150
    w2 := 50
    v1 := velocity_large
    v2 := 0
    collisions := 0
    finished := false }

/-- Engine construction as performed by `App.reset_simulation`: the caller
raises `ValueError` (and keeps no engine) when `m1 <= 0`, otherwise it builds
`PhysicsEngine(m1, v1)`. -/
def createEngine (mass_large velocity_large : ℚ) : Option PhysicsEngine :=
  if mass_large ≤ 0 then none else some (init mass_large velocity_large)

/-- `resolve_wall_collision`: `self.v2 *= -1; self.collisions += 1`. -/
def resolve_wall_collision (s : PhysicsEngine) : PhysicsEngine :=
  { s with v2 := -s.v2, collisions := s.collisions + 1 }

/-- `resolve_block_collision`: the 1-D elastic collision formulas, evaluated
on the pre-collision velocities `u1 = self.v1`, `u2 = self.v2`. -/
def resolve_block_collision (s : PhysicsEngine) : PhysicsEngine :=
  { s with
    v1 := ((s.m1 - s.m2) * s.v1 + 2 * s.m2 * s.v2) / (s.m1 + s.m2)
    v2 := ((s.m2 - s.m1) * s.v2 + 2 * s.m1 * s.v1) / (s.m1 + s.m2)
    collisions := s.collisions + 1 }

/-- Time to the wall collision (`t_wall` in the source):
`x2 / abs(v2)` when `v2 < 0`, `float('inf')` (here `none`) otherwise. -/
def tWall (s : PhysicsEngine) : Option ℚ :=
  if s.v2 < 0 then some (s.x2 / |s.v2|) else none

/-- Time to the block-block collision (`t_block` in the source):
`(x1 - (x2 + w2)) / (v2 - v1)` when `v1 < v2`, `float('inf')` otherwise. -/
def tBlock (s : PhysicsEngine) : Option ℚ :=
  if s.v1 < s.v2 then some ((s.x1 - (s.x2 + s.w2)) / (s.v2 - s.v1)) else none

/-- `min` on times where `none` stands for `+infinity`. -/
def timeMin : Option ℚ → Option ℚ → Option ℚ
  | none, b => b
  | some a, none => some a
  | some a, some b => some (min a b)

/-- Strict `<` on times where `none` stands for `+infinity`
(mirrors the IEEE comparison `t_wall < t_block` of the source). -/
def timeLT : Option ℚ → Option ℚ → Bool
  | some a, some b => decide (a < b)
  | some _, none => true
  | none, _ => false

/-- `t_next = min(t_wall, t_block)`. -/
def tNextTime (s : PhysicsEngine) : Option ℚ :=
  timeMin (tWall s) (tBlock s)

/-- Linear motion of both blocks: `x1 += v1*t; x2 += v2*t`. -/
def advancePos (s : PhysicsEngine) (t : ℚ) : PhysicsEngine :=
  { s with x1 := s.x1 + s.v1 * t, x2 := s.x2 + s.v2 * t }

/-- One iteration of the `while time_remaining > 0` loop of `step`. -/
def stepIter (s : PhysicsEngine) (rem : ℚ) : PhysicsEngine × ℚ :=
  match tNextTime s with
  | some t =>
      if t ≤ rem then
        ((if timeLT (tWall s) (tBlock s) then
            resolve_wall_collision (advancePos s t)
          else
            resolve_block_collision (advancePos s t)), rem - t)
      else
        (advancePos s rem, 0)
  | none => (advancePos s rem, 0)

/-- The `while time_remaining > 0` loop, with explicit fuel; `none` means the
fuel was exhausted before the loop finished. -/
def stepLoop : ℕ → PhysicsEngine → ℚ → Option PhysicsEngine
  | 0, s, rem => if 0 < rem then none else some s
  | fuel + 1, s, rem =>
      if 0 < rem then
        stepLoop fuel (stepIter s rem).1 (stepIter s rem).2
      else some s

/-- The source's terminal condition
`v1 >= 0 and v2 >= 0 and v1 >= v2`. -/
def Receding (s : PhysicsEngine) : Prop :=
  0 ≤ s.v1 ∧ 0 ≤ s.v2 ∧ s.v2 ≤ s.v1

instance recedingDecidable (s : PhysicsEngine) : Decidable (Receding s) :=
  inferInstanceAs (Decidable (0 ≤ s.v1 ∧ 0 ≤ s.v2 ∧ s.v2 ≤ s.v1))

/-- The final check of `step`: set `finished` when both blocks move away from
the wall and the large one at least as fast as the small one. -/
def setFinished (s : PhysicsEngine) : PhysicsEngine :=
  if Receding s then { s with finished := true } else s

/-- `PhysicsEngine.step(dt)`: run the collision loop, then the terminal
check.  `fuel` bounds the number of loop iterations. -/
def step (fuel : ℕ) (s : PhysicsEngine) (dt : ℚ) : Option PhysicsEngine :=
  (stepLoop fuel s dt).map setFinished

/-- States reachable through the public lifecycle: construction with a
positive mass (as validated by `App.reset_simulation`) followed by any
sequence of completed `step` calls. -/
inductive Reachable : PhysicsEngine → Prop
  | created (m v : ℚ) (hm : 0 < m) : Reachable (init m v)
  | advanced (s : PhysicsEngine) (fuel : ℕ) (dt : ℚ) (s' : PhysicsEngine)
      (hs : Reachable s) (h : step fuel s dt = some s') : Reachable s'

/-- The two positional invariants of the simulation: the small block is on
the wall side of the axis and the large block never overlaps it. -/
def Inv (s : PhysicsEngine) : Prop :=
  0 ≤ s.x2 ∧ s.x2 + s.w2 ≤ s.x1

instance invDecidable (s : PhysicsEngine) : Decidable (Inv s) :=
  inferInstanceAs (Decidable (0 ≤ s.x2 ∧ s.x2 + s.w2 ≤ s.x1))

lemma tWall_eq_some {s : PhysicsEngine} {a : ℚ} (h : tWall s = some a) :
    s.v2 < 0 ∧ a = s.x2 / |s.v2| := by
  unfold tWall at h
  split_ifs at h with hv
  · exact ⟨hv, (Option.some_inj.mp h).symm⟩

lemma tWall_of_nonneg {s : PhysicsEngine} (h : 0 ≤ s.v2) : tWall s = none := by
  unfold tWall
  exact if_neg (not_lt.mpr h)

lemma tBlock_eq_some {s : PhysicsEngine} {b : ℚ} (h : tBlock s = some b) :
    s.v1 < s.v2 ∧ b = (s.x1 - (s.x2 + s.w2)) / (s.v2 - s.v1) := by
  unfold tBlock at h
  split_ifs at h with hv
  · exact ⟨hv, (Option.some_inj.mp h).symm⟩

lemma tBlock_of_ge {s : PhysicsEngine} (h : s.v2 ≤ s.v1) : tBlock s = none := by
  unfold tBlock
  exact if_neg (not_lt.mpr h)

lemma timeMin_eq_none {a b : Option ℚ} (h : timeMin a b = none) :
    a = none ∧ b = none := by
  cases a <;> cases b <;> simp [timeMin] at h ⊢

lemma timeMin_eq_some {a b : Option ℚ} {t : ℚ} (h : timeMin a b = some t) :
    (a = some t ∨ b = some t) ∧
      (∀ x, a = some x → t ≤ x) ∧ (∀ x, b = some x → t ≤ x) := by
  cases a with
  | none =>
      cases b <;> simp_all [timeMin]
  | some x =>
      cases b with
      | none => simp_all [timeMin]
      | some y =>
          simp only [timeMin, Option.some_inj] at h
          subst h
          refine ⟨?_, ?_, ?_⟩
          · rcases min_choice x y with h | h
            · exact Or.inl (by simp [h])
            · exact Or.inr (by simp [h])
          · intro z hz
            cases Option.some_inj.mp hz
            exact min_le_left _ _
          · intro z hz
            cases Option.some_inj.mp hz
            exact min_le_right _ _

lemma timeLT_true {a b : Option ℚ} (h : timeLT a b = true) : a.isSome = true := by
  cases a <;> cases b <;> simp_all [timeLT]

lemma tBlock_isSome_of_not_timeLT {s : PhysicsEngine} {t : ℚ}
    (h : tNextTime s = some t) (hlt : timeLT (tWall s) (tBlock s) = false) :
    (tBlock s).isSome = true := by
  cases hb : tBlock s with
  | some b => rfl
  | none =>
      cases hw : tWall s with
      | none => simp [tNextTime, hw, hb, timeMin] at h
      | some a => simp [hw, hb, timeLT] at hlt

lemma stepIter_none {s : PhysicsEngine} {rem : ℚ} (h : tNextTime s = none) :
    stepIter s rem = (advancePos s rem, 0) := by
  simp [stepIter, h]

lemma stepIter_far {s : PhysicsEngine} {rem t : ℚ} (h : tNextTime s = some t)
    (h2 : ¬ t ≤ rem) : stepIter s rem = (advancePos s rem, 0) := by
  simp [stepIter, h, h2]

lemma stepIter_wall {s : PhysicsEngine} {rem t : ℚ} (h : tNextTime s = some t)
    (h2 : t ≤ rem) (h3 : timeLT (tWall s) (tBlock s) = true) :
    stepIter s rem = (resolve_wall_collision (advancePos s t), rem - t) := by
  simp [stepIter, h, h2, h3]

lemma stepIter_block {s : PhysicsEngine} {rem t : ℚ} (h : tNextTime s = some t)
    (h2 : t ≤ rem) (h3 : timeLT (tWall s) (tBlock s) = false) :
    stepIter s rem = (resolve_block_collision (advancePos s t), rem - t) := by
  simp [stepIter, h, h2, h3]

lemma stepLoop_of_nonpos {s : PhysicsEngine} {rem : ℚ} (fuel : ℕ)
    (h : ¬ 0 < rem) : stepLoop fuel s rem = some s := by
  cases fuel <;> simp [stepLoop, h]

lemma stepLoop_succ {s : PhysicsEngine} {rem : ℚ} {fuel : ℕ} (h : 0 < rem) :
    stepLoop (fuel + 1) s rem =
      stepLoop fuel (stepIter s rem).1 (stepIter s rem).2 := by
  simp [stepLoop, h]

lemma tNext_nonneg {s : PhysicsEngine} {t : ℚ} (hI : Inv s)
    (h : tNextTime s = some t) : 0 ≤ t := by
  obtain ⟨hor, _, _⟩ := timeMin_eq_some h
  rcases hor with hw | hb
  · obtain ⟨hv, ha⟩ := tWall_eq_some hw
    rw [ha]
    exact div_nonneg hI.1 (abs_nonneg _)
  · obtain ⟨hv, hb'⟩ := tBlock_eq_some hb
    rw [hb']
    apply div_nonneg (by linarith [hI.2]) (by linarith)

lemma advancePos_inv {s : PhysicsEngine} {t : ℚ} (hI : Inv s) (h0 : 0 ≤ t)
    (hw : ∀ a, tWall s = some a → t ≤ a)
    (hb : ∀ b, tBlock s = some b → t ≤ b) : Inv (advancePos s t) := by
  obtain ⟨h2, h12⟩ := hI
  constructor
  · show 0 ≤ s.x2 + s.v2 * t
    rcases lt_or_le s.v2 0 with hv | hv
    · have ht := hw _ (by unfold tWall; rw [if_pos hv])
      rw [abs_of_neg hv] at ht
      have := (le_div_iff₀ (by linarith : (0:ℚ) < -s.v2)).mp ht
      nlinarith
    · nlinarith
  · show (s.x2 + s.v2 * t) + s.w2 ≤ s.x1 + s.v1 * t
    rcases lt_or_le s.v1 s.v2 with hv | hv
    · have ht := hb _ (by unfold tBlock; rw [if_pos hv])
      have := (le_div_iff₀ (by linarith : (0:ℚ) < s.v2 - s.v1)).mp ht
      nlinarith
    · nlinarith

lemma inv_resolve_wall {s : PhysicsEngine} (hI : Inv s) :
    Inv (resolve_wall_collision s) := hI

lemma inv_resolve_block {s : PhysicsEngine} (hI : Inv s) :
    Inv (resolve_block_collision s) := hI

lemma stepIter_inv {s : PhysicsEngine} {rem : ℚ} (hI : Inv s) (hrem : 0 < rem) :
    Inv (stepIter s rem).1 := by
  cases h : tNextTime s with
  | none =>
      rw [stepIter_none h]
      obtain ⟨hw, hb⟩ := timeMin_eq_none h
      exact advancePos_inv hI hrem.le
        (fun a ha => by rw [hw] at ha; cases ha)
        (fun b hbx => by rw [hb] at hbx; cases hbx)
  | some t =>
      obtain ⟨_, hwle, hble⟩ := timeMin_eq_some h
      by_cases h2 : t ≤ rem
      · have hadv : Inv (advancePos s t) :=
          advancePos_inv hI (tNext_nonneg hI h) hwle hble
        by_cases h3 : timeLT (tWall s) (tBlock s) = true
        · rw [stepIter_wall h h2 h3]
          exact inv_resolve_wall hadv
        · rw [stepIter_block h h2 (Bool.not_eq_true _ ▸ h3)]
          exact inv_resolve_block hadv
      · rw [stepIter_far h h2]
        have hrt : rem < t := not_le.mp h2
        exact advancePos_inv hI hrem.le
          (fun a ha => le_trans hrt.le (hwle a ha))
          (fun b hbx => le_trans hrt.le (hble b hbx))

lemma stepLoop_inv {fuel : ℕ} :
    ∀ {s : PhysicsEngine} {rem : ℚ} {s' : PhysicsEngine}, Inv s →
      stepLoop fuel s rem = some s' → Inv s' := by
  induction fuel with
  | zero =>
      intro s rem s' hI h
      unfold stepLoop at h
      split_ifs at h
      cases Option.some_inj.mp h
      exact hI
  | succ n ih =>
      intro s rem s' hI h
      by_cases hrem : 0 < rem
      · rw [stepLoop_succ hrem] at h
        exact ih (stepIter_inv hI hrem) h
      · rw [stepLoop_of_nonpos _ hrem] at h
        cases Option.some_inj.mp h
        exact hI

lemma setFinished_fields (s : PhysicsEngine) :
    (setFinished s).m1 = s.m1 ∧ (setFinished s).m2 = s.m2 ∧
    (setFinished s).x1 = s.x1 ∧ (setFinished s).x2 = s.x2 ∧
    (setFinished s).w1 = s.w1 ∧ (setFinished s).w2 = s.w2 ∧
    (setFinished s).v1 = s.v1 ∧ (setFinished s).v2 = s.v2 ∧
    (setFinished s).collisions = s.collisions := by
  unfold setFinished
  split_ifs <;> simp

lemma setFinished_finished (s : PhysicsEngine) :
    ((setFinished s).finished = true ↔ (s.finished = true ∨ Receding s)) := by
  unfold setFinished
  split_ifs with h <;> simp [h]

lemma advancePos_fields (s : PhysicsEngine) (t : ℚ) :
    (advancePos s t).m1 = s.m1 ∧ (advancePos s t).m2 = s.m2 ∧
    (advancePos s t).w1 = s.w1 ∧ (advancePos s t).w2 = s.w2 ∧
    (advancePos s t).v1 = s.v1 ∧ (advancePos s t).v2 = s.v2 ∧
    (advancePos s t).collisions = s.collisions ∧
    (advancePos s t).finished = s.finished := by
  simp [advancePos]

lemma stepIter_const (s : PhysicsEngine) (rem : ℚ) :
    (stepIter s rem).1.m1 = s.m1 ∧ (stepIter s rem).1.m2 = s.m2 ∧
    (stepIter s rem).1.w1 = s.w1 ∧ (stepIter s rem).1.w2 = s.w2 ∧
    (stepIter s rem).1.finished = s.finished := by
  unfold stepIter
  rcases tNextTime s with _ | t
  · simp [advancePos]
  · by_cases h2 : t ≤ rem
    · by_cases h3 : timeLT (tWall s) (tBlock s) = true
      · simp [h2, h3, resolve_wall_collision, advancePos]
      · simp [h2, h3, resolve_block_collision, advancePos]
    · simp [h2, advancePos]

lemma stepLoop_const {fuel : ℕ} :
    ∀ {s : PhysicsEngine} {rem : ℚ} {s' : PhysicsEngine},
      stepLoop fuel s rem = some s' →
      s'.m1 = s.m1 ∧ s'.m2 = s.m2 ∧ s'.w1 = s.w1 ∧ s'.w2 = s.w2 ∧
        s'.finished = s.finished := by
  induction fuel with
  | zero =>
      intro s rem s' h
      unfold stepLoop at h
      split_ifs at h
      cases Option.some_inj.mp h
      exact ⟨rfl, rfl, rfl, rfl, rfl⟩
  | succ n ih =>
      intro s rem s' h
      by_cases hrem : 0 < rem
      · rw [stepLoop_succ hrem] at h
        obtain ⟨a1, a2, a3, a4, a5⟩ := ih h
        obtain ⟨b1, b2, b3, b4, b5⟩ := stepIter_const s rem
        exact ⟨a1.trans b1, a2.trans b2, a3.trans b3, a4.trans b4, a5.trans b5⟩
      · rw [stepLoop_of_nonpos _ hrem] at h
        cases Option.some_inj.mp h
        exact ⟨rfl, rfl, rfl, rfl, rfl⟩

lemma stepIter_receding {s : PhysicsEngine} (hR : Receding s) (rem : ℚ) :
    stepIter s rem = (advancePos s rem, 0) := by
  obtain ⟨h1, h2, h3⟩ := hR
  have hw : tWall s = none := tWall_of_nonneg h2
  have hb : tBlock s = none := tBlock_of_ge h3
  exact stepIter_none (by simp [tNextTime, hw, hb, timeMin])

lemma stepLoop_receding {fuel : ℕ} :
    ∀ {s : PhysicsEngine} {rem : ℚ} {s' : PhysicsEngine}, Receding s →
      stepLoop fuel s rem = some s' →
      s'.v1 = s.v1 ∧ s'.v2 = s.v2 ∧ s'.collisions = s.collisions ∧
        s'.finished = s.finished := by
  induction fuel with
  | zero =>
      intro s rem s' _ h
      unfold stepLoop at h
      split_ifs at h
      cases Option.some_inj.mp h
      exact ⟨rfl, rfl, rfl, rfl⟩
  | succ n ih =>
      intro s rem s' hR h
      by_cases hrem : 0 < rem
      · rw [stepLoop_succ hrem, stepIter_receding hR rem] at h
        have hR' : Receding (advancePos s rem) := hR
        obtain ⟨a1, a2, a3, a4⟩ := ih hR' h
        exact ⟨a1, a2, a3, a4⟩
      · rw [stepLoop_of_nonpos _ hrem] at h
        cases Option.some_inj.mp h
        exact ⟨rfl, rfl, rfl, rfl⟩

lemma receding_of_velocities {s s' : PhysicsEngine} (h1 : s'.v1 = s.v1)
    (h2 : s'.v2 = s.v2) (hR : Receding s) : Receding s' := by
  unfold Receding at hR ⊢
  rw [h1, h2]
  exact hR

lemma reachable_facts {s : PhysicsEngine} (h : Reachable s) :
    0 < s.m1 ∧ s.m2 = 1 ∧ (s.finished = true → Receding s) := by
  induction h with
  | created m v hm =>
      refine ⟨hm, rfl, ?_⟩
      intro hf
      simp [init] at hf
  | advanced s fuel dt s' hs hstep ih =>
      obtain ⟨L, hL, hL'⟩ := Option.map_eq_some'.mp hstep
      obtain ⟨c1, c2, _, _, c5⟩ := stepLoop_const hL
      obtain ⟨f1, f2, _, _, _, _, f7, f8, _⟩ := setFinished_fields L
      subst hL'
      refine ⟨?_, ?_, ?_⟩
      · rw [f1, c1]; exact ih.1
      · rw [f2, c2]; exact ih.2.1
      · intro hf
        by_cases hRL : Receding L
        · exact receding_of_velocities f7 f8 hRL
        · have hfin : (setFinished L).finished = L.finished := by
            unfold setFinished
            rw [if_neg hRL]
          rw [hfin, c5] at hf
          have hRs : Receding s := ih.2.2 hf
          obtain ⟨a1, a2, _, _⟩ := stepLoop_receding hRs hL
          exact absurd (receding_of_velocities a1 a2 hRs) hRL

end PhysicsEngine

/-- Abstract rotation fact used for termination: iterating a rotation of
angle `α ∈ (0, π)` (given through its matrix entries `c, s` with
`c² + s² = 1`, `s > 0`) starting anywhere in the plane eventually produces a
point whose second coordinate is non-negative. -/
lemma rot_exists_nonneg (c s : ℝ) (hcs : c ^ 2 + s ^ 2 = 1) (hs : 0 < s)
    (F : ℕ → ℝ × ℝ)
    (hF : ∀ j, F (j + 1) =
      (c * (F j).1 - s * (F j).2, s * (F j).1 + c * (F j).2)) :
    ∃ j, 0 ≤ (F j).2 := by
  by_contra hneg
  push_neg at hneg
  set α := Real.arccos c with hα
  have hc_lt : c < 1 := by nlinarith
  have hc_gt : -1 < c := by nlinarith
  have hcos : Real.cos α = c := Real.cos_arccos hc_gt.le hc_lt.le
  have hsin : Real.sin α = s := by
    rw [hα, Real.sin_arccos]
    have h1 : 1 - c ^ 2 = s ^ 2 := by linarith
    rw [h1, Real.sqrt_sq hs.le]
  have hα_pos : 0 < α := by
    rcases lt_or_eq_of_le (Real.arccos_nonneg c) with h | h
    · exact h
    · exfalso
      rw [hα, ← h, Real.sin_zero] at hsin
      exact absurd hsin.symm (ne_of_gt hs)
  have hα_lt_pi : α < Real.pi := by
    rcases lt_or_eq_of_le (Real.arccos_le_pi c) with h | h
    · exact h
    · exfalso
      rw [hα, h, Real.sin_pi] at hsin
      exact absurd hsin.symm (ne_of_gt hs)
  -- polar form of the starting point
  have h0 : (F 0).2 < 0 := hneg 0
  set z : ℂ := ⟨(F 0).1, (F 0).2⟩ with hz_def
  have hz : z ≠ 0 := by
    intro hzz
    have : (F 0).2 = 0 := congrArg Complex.im hzz
    linarith
  set ρ : ℝ := Complex.abs z with hρ_def
  have hρ : 0 < ρ := Complex.abs.pos hz
  set φ : ℝ := Complex.arg z with hφ_def
  have hre : (F 0).1 = ρ * Real.cos φ := by
    have h1 := Complex.cos_arg hz
    have h2 : z.re = (F 0).1 := rfl
    rw [hφ_def, h1, h2]
    field_simp
  have him : (F 0).2 = ρ * Real.sin φ := by
    have h1 := Complex.sin_arg z
    have h2 : z.im = (F 0).2 := rfl
    rw [hφ_def, h1, h2]
    field_simp
  have hpolar : ∀ j : ℕ,
      (F j).1 = ρ * Real.cos (φ + j * α) ∧
      (F j).2 = ρ * Real.sin (φ + j * α) := by
    intro j
    induction j with
    | zero => simpa using ⟨hre, him⟩
    | succ n ih =>
        obtain ⟨ih1, ih2⟩ := ih
        have harg : φ + (n + 1 : ℕ) * α = (φ + n * α) + α := by
          push_cast
          ring
        have hca : Real.cos (φ + (n : ℝ) * α + α) =
            Real.cos (φ + (n : ℝ) * α) * Real.cos α -
              Real.sin (φ + (n : ℝ) * α) * Real.sin α := Real.cos_add _ _
        have hsa : Real.sin (φ + (n : ℝ) * α + α) =
            Real.sin (φ + (n : ℝ) * α) * Real.cos α +
              Real.cos (φ + (n : ℝ) * α) * Real.sin α := Real.sin_add _ _
        rw [hF n, harg]
        constructor
        · show c * (F n).1 - s * (F n).2 = ρ * Real.cos (φ + (n : ℝ) * α + α)
          rw [hca, ih1, ih2, hcos, hsin]
          ring
        · show s * (F n).1 + c * (F n).2 = ρ * Real.sin (φ + (n : ℝ) * α + α)
          rw [hsa, ih1, ih2, hcos, hsin]
          ring
  have hsin_neg : ∀ j : ℕ, Real.sin (φ + j * α) < 0 := by
    intro j
    have h1 := hneg j
    rw [(hpolar j).2] at h1
    by_contra h2
    push_neg at h2
    exact absurd (mul_nonneg hρ.le h2) (not_le.mpr h1)
  -- normalize the phase into [0, 2π)
  set k : ℤ := ⌊φ / (2 * Real.pi)⌋ with hk_def
  set ψ : ℝ := φ - k * (2 * Real.pi) with hψ_def
  have h2π : 0 < 2 * Real.pi := by positivity
  have hψ0 : 0 ≤ ψ := by
    have h1 : (k : ℝ) ≤ φ / (2 * Real.pi) := Int.floor_le _
    have h2 : (k : ℝ) * (2 * Real.pi) ≤ φ := (le_div_iff₀ h2π).mp h1
    simp only [hψ_def]
    linarith
  have hψlt : ψ < 2 * Real.pi := by
    have h1 : φ / (2 * Real.pi) < k + 1 := Int.lt_floor_add_one _
    have h2 : φ < ((k : ℝ) + 1) * (2 * Real.pi) := (div_lt_iff₀ h2π).mp h1
    simp only [hψ_def]
    nlinarith
  have hsinψ : ∀ j : ℕ, Real.sin (ψ + j * α) = Real.sin (φ + j * α) := by
    intro j
    have h1 : ψ + j * α = (φ + j * α) - k * (2 * Real.pi) := by
      simp only [hψ_def]
      ring
    rw [h1, Real.sin_sub_int_mul_two_pi]
  have hψπ : Real.pi < ψ := by
    by_contra h1
    push_neg at h1
    have h2 : 0 ≤ Real.sin ψ := Real.sin_nonneg_of_nonneg_of_le_pi hψ0 h1
    have h3 := hsin_neg 0
    rw [← hsinψ 0] at h3
    simp only [Nat.cast_zero, zero_mul, add_zero] at h3
    linarith
  have hmain : ∀ j : ℕ, ψ + j * α < 2 * Real.pi := by
    intro j
    induction j with
    | zero => simpa using hψlt
    | succ n ih =>
        by_contra h1
        push_neg at h1
        have harg : ψ + (n + 1 : ℕ) * α = (ψ + n * α) + α := by
          push_cast
          ring
        have hx_lo : 0 ≤ (ψ + n * α) + α - 2 * Real.pi := by
          rw [harg] at h1
          linarith
        have hnn : (0 : ℝ) ≤ (n : ℝ) * α :=
          mul_nonneg (Nat.cast_nonneg n) hα_pos.le
        have hx_hi : (ψ + n * α) + α - 2 * Real.pi ≤ Real.pi := by
          linarith
        have h2 : 0 ≤ Real.sin ((ψ + n * α) + α - 2 * Real.pi) :=
          Real.sin_nonneg_of_nonneg_of_le_pi hx_lo hx_hi
        rw [Real.sin_sub_two_pi] at h2
        have h3 := hsin_neg (n + 1)
        rw [← hsinψ (n + 1), harg] at h3
        linarith
  obtain ⟨j, hj⟩ := exists_nat_gt ((2 * Real.pi - ψ) / α)
  have h1 : (2 * Real.pi - ψ) / α < (j : ℝ) := hj
  have h2 : 2 * Real.pi - ψ < j * α := (div_lt_iff₀ hα_pos).mp h1
  have h3 := hmain j
  linarith

/-- Wall resolution at the level of the velocity pair `(v1, v2)`. -/
def Wv (p : ℚ × ℚ) : ℚ × ℚ := (p.1, -p.2)

/-- Block resolution at the level of the velocity pair, with the small mass
fixed at `1` as in the source (`self.m2 = 1.0`). -/
def Bv (m1 : ℚ) (p : ℚ × ℚ) : ℚ × ℚ :=
  (((m1 - 1) * p.1 + 2 * p.2) / (m1 + 1),
   ((1 - m1) * p.2 + 2 * m1 * p.1) / (m1 + 1))

/-- One wall bounce followed by one block collision, on velocities. -/
def Tv (m1 : ℚ) (p : ℚ × ℚ) : ℚ × ℚ := Bv m1 (Wv p)

lemma resolve_wall_velocities (s : PhysicsEngine) :
    ((PhysicsEngine.resolve_wall_collision s).v1,
      (PhysicsEngine.resolve_wall_collision s).v2) = Wv (s.v1, s.v2) := by
  simp [PhysicsEngine.resolve_wall_collision, Wv]

lemma resolve_block_velocities (s : PhysicsEngine) (hm2 : s.m2 = 1) :
    ((PhysicsEngine.resolve_block_collision s).v1,
      (PhysicsEngine.resolve_block_collision s).v2) = Bv s.m1 (s.v1, s.v2) := by
  simp [PhysicsEngine.resolve_block_collision, Bv, hm2]

/-- Every velocity pair, iterated through wall-then-block rounds, eventually
has a non-negative small-block velocity.  This is the analytic core of the
termination proof: in the scaled phase plane `(√m1·v1, v2)` each round is a
rotation by a fixed angle in `(0, π)`. -/
lemma exists_wall_exit (m1 : ℚ) (hm1 : 0 < m1) (p : ℚ × ℚ) :
    ∃ j, 0 ≤ ((Tv m1)^[j] p).2 := by
  have hm1R : (0 : ℝ) < (m1 : ℚ) := by exact_mod_cast hm1
  have hden : ((m1 : ℝ) + 1) ≠ 0 := by positivity
  have hsq : Real.sqrt (m1 : ℝ) * Real.sqrt (m1 : ℝ) = (m1 : ℝ) :=
    Real.mul_self_sqrt hm1R.le
  have hsqrt_pos : 0 < Real.sqrt (m1 : ℝ) := Real.sqrt_pos.mpr hm1R
  set c : ℝ := ((m1 : ℝ) - 1) / ((m1 : ℝ) + 1) with hc_def
  set s : ℝ := 2 * Real.sqrt (m1 : ℝ) / ((m1 : ℝ) + 1) with hs_def
  have hcs : c ^ 2 + s ^ 2 = 1 := by
    rw [hc_def, hs_def]
    field_simp
    nlinarith [hsq]
  have hs_pos : 0 < s := by
    rw [hs_def]
    positivity
  set F : ℕ → ℝ × ℝ := fun j =>
    (Real.sqrt (m1 : ℝ) * ((((Tv m1)^[j] p).1 : ℚ) : ℝ),
     ((((Tv m1)^[j] p).2 : ℚ) : ℝ)) with hF_def
  have hF : ∀ j, F (j + 1) =
      (c * (F j).1 - s * (F j).2, s * (F j).1 + c * (F j).2) := by
    intro j
    have hit : (Tv m1)^[j + 1] p = Tv m1 ((Tv m1)^[j] p) :=
      Function.iterate_succ_apply' _ _ _
    set q : ℚ × ℚ := (Tv m1)^[j] p with hq_def
    have hq1 : (Tv m1 q).1 = ((m1 - 1) * q.1 - 2 * q.2) / (m1 + 1) := by
      simp [Tv, Bv, Wv]
      ring_nf
    have hq2 : (Tv m1 q).2 = ((m1 - 1) * q.2 + 2 * m1 * q.1) / (m1 + 1) := by
      simp [Tv, Bv, Wv]
      ring_nf
    have hdenQ : (m1 + 1) ≠ 0 := by positivity
    simp only [hF_def, hit, hq1, hq2]
    rw [Prod.mk.injEq]
    constructor
    · show Real.sqrt (m1 : ℝ) * ((((m1 - 1) * q.1 - 2 * q.2) / (m1 + 1) : ℚ) : ℝ) =
        c * (Real.sqrt (m1 : ℝ) * ((q.1 : ℚ) : ℝ)) - s * ((q.2 : ℚ) : ℝ)
      rw [hc_def, hs_def]
      push_cast
      field_simp
      ring
    · show ((((m1 - 1) * q.2 + 2 * m1 * q.1) / (m1 + 1) : ℚ) : ℝ) =
        s * (Real.sqrt (m1 : ℝ) * ((q.1 : ℚ) : ℝ)) + c * ((q.2 : ℚ) : ℝ)
      rw [hc_def, hs_def]
      push_cast
      field_simp
      linear_combination (-2 * (q.1 : ℝ)) * hsq
  obtain ⟨j, hj⟩ := rot_exists_nonneg c s hcs hs_pos F hF
  refine ⟨j, ?_⟩
  have : (0 : ℝ) ≤ ((((Tv m1)^[j] p).2 : ℚ) : ℝ) := hj
  exact_mod_cast this

/-- Number of wall-then-block rounds after which the small-block velocity
first becomes non-negative. -/
def Kv (m1 : ℚ) (p : ℚ × ℚ) : ℕ :=
  if hm1 : 0 < m1 then Nat.find (exists_wall_exit m1 hm1 p) else 0

lemma Kv_eq (m1 : ℚ) (hm1 : 0 < m1) (p : ℚ × ℚ) :
    Kv m1 p = Nat.find (exists_wall_exit m1 hm1 p) := dif_pos hm1

lemma Kv_spec (m1 : ℚ) (hm1 : 0 < m1) (p : ℚ × ℚ) :
    0 ≤ ((Tv m1)^[Kv m1 p] p).2 := by
  rw [Kv_eq m1 hm1 p]
  exact Nat.find_spec (exists_wall_exit m1 hm1 p)

lemma Kv_min {m1 : ℚ} (hm1 : 0 < m1) {p : ℚ × ℚ} {j : ℕ}
    (h : j < Kv m1 p) : ((Tv m1)^[j] p).2 < 0 := by
  rw [Kv_eq m1 hm1 p] at h
  exact not_le.mp (Nat.find_min (exists_wall_exit m1 hm1 p) h)

lemma Kv_pos {m1 : ℚ} (hm1 : 0 < m1) {p : ℚ × ℚ} (hp : p.2 < 0) :
    1 ≤ Kv m1 p := by
  by_contra h
  push_neg at h
  interval_cases hK : Kv m1 p
  · have := Kv_spec m1 hm1 p
    rw [hK] at this
    simp only [Function.iterate_zero_apply] at this
    linarith

lemma Kv_shift {m1 : ℚ} (hm1 : 0 < m1) {p : ℚ × ℚ} (hp : p.2 < 0) :
    Kv m1 (Tv m1 p) = Kv m1 p - 1 := by
  have hk1 : 1 ≤ Kv m1 p := Kv_pos hm1 hp
  apply le_antisymm
  · rw [Kv_eq m1 hm1 (Tv m1 p)]
    apply Nat.find_le
    show 0 ≤ ((Tv m1)^[Kv m1 p - 1] (Tv m1 p)).2
    have hiter : (Tv m1)^[Kv m1 p - 1] (Tv m1 p) = (Tv m1)^[Kv m1 p] p := by
      rw [← Function.iterate_succ_apply]
      congr 1
      omega
    rw [hiter]
    exact Kv_spec m1 hm1 p
  · rw [Kv_eq m1 hm1 (Tv m1 p)]
    rw [Nat.le_find_iff]
    intro m hm
    rw [not_le, ← Function.iterate_succ_apply]
    exact Kv_min hm1 (by omega : m + 1 < Kv m1 p)

/-- Upper bound on the number of collisions still possible from a velocity
pair; it strictly decreases at every wall and at every block resolution. -/
def muV (m1 : ℚ) (p : ℚ × ℚ) : ℕ :=
  max (if p.2 < 0 then 2 * Kv m1 p else 0)
      (if p.1 < p.2 then
        1 + (if (Bv m1 p).2 < 0 then 2 * Kv m1 (Bv m1 p) else 0)
      else 0)

lemma Bv_reverses {m1 : ℚ} (hm1 : 0 < m1) (p : ℚ × ℚ) :
    (Bv m1 p).1 - (Bv m1 p).2 = p.2 - p.1 := by
  have hden : m1 + 1 ≠ 0 := by positivity
  unfold Bv
  field_simp
  ring

lemma muV_wall_lt {m1 : ℚ} (hm1 : 0 < m1) {p : ℚ × ℚ} (hp : p.2 < 0) :
    muV m1 (Wv p) < muV m1 p := by
  have hK1 : 1 ≤ Kv m1 p := Kv_pos hm1 hp
  have hleft : 2 * Kv m1 p ≤ muV m1 p := by
    unfold muV
    rw [if_pos hp]
    exact le_max_left _ _
  have hWv2 : ¬ ((Wv p).2 < 0) := by
    show ¬ (-p.2 < 0)
    linarith
  have hTv : Bv m1 (Wv p) = Tv m1 p := rfl
  have hWmu : muV m1 (Wv p) =
      (if (Wv p).1 < (Wv p).2 then
        1 + (if (Tv m1 p).2 < 0 then 2 * Kv m1 (Tv m1 p) else 0)
      else 0) := by
    unfold muV
    rw [if_neg hWv2, hTv, Nat.zero_max]
  rw [hWmu]
  by_cases hb : (Wv p).1 < (Wv p).2
  · rw [if_pos hb]
    by_cases hbb : (Tv m1 p).2 < 0
    · rw [if_pos hbb, Kv_shift hm1 hp]
      omega
    · rw [if_neg hbb]
      omega
  · rw [if_neg hb]
    omega

lemma muV_block_lt {m1 : ℚ} (hm1 : 0 < m1) {p : ℚ × ℚ} (hp : p.1 < p.2) :
    muV m1 (Bv m1 p) < muV m1 p := by
  have hrev : (Bv m1 p).1 - (Bv m1 p).2 = p.2 - p.1 := Bv_reverses hm1 p
  have hq : ¬ ((Bv m1 p).1 < (Bv m1 p).2) := by
    apply not_lt.mpr
    linarith
  have hright : 1 + (if (Bv m1 p).2 < 0 then 2 * Kv m1 (Bv m1 p) else 0) ≤
      muV m1 p := by
    unfold muV
    rw [if_pos hp]
    exact le_max_right _ _
  have hmu : muV m1 (Bv m1 p) =
      (if (Bv m1 p).2 < 0 then 2 * Kv m1 (Bv m1 p) else 0) := by
    unfold muV
    rw [if_neg hq, Nat.max_zero]
  rw [hmu]
  omega

namespace PhysicsEngine

lemma wall_fired_v2_neg {s : PhysicsEngine}
    (h : timeLT (tWall s) (tBlock s) = true) : s.v2 < 0 := by
  have h1 : (tWall s).isSome = true := timeLT_true h
  obtain ⟨a, ha⟩ := Option.isSome_iff_exists.mp h1
  exact (tWall_eq_some ha).1

lemma block_fired_closing {s : PhysicsEngine} {t : ℚ}
    (h : tNextTime s = some t)
    (hlt : timeLT (tWall s) (tBlock s) = false) : s.v1 < s.v2 := by
  have h1 : (tBlock s).isSome = true := tBlock_isSome_of_not_timeLT h hlt
  obtain ⟨b, hb⟩ := Option.isSome_iff_exists.mp h1
  exact (tBlock_eq_some hb).1

lemma stepLoop_total_aux :
    ∀ N : ℕ, ∀ s : PhysicsEngine, ∀ rem : ℚ, 0 < s.m1 → s.m2 = 1 →
      muV s.m1 (s.v1, s.v2) ≤ N → ∃ n, (stepLoop n s rem).isSome = true := by
  intro N
  induction N with
  | zero =>
      intro s rem hm1 hm2 hμ
      have hμ0 : muV s.m1 (s.v1, s.v2) = 0 := Nat.le_zero.mp hμ
      have hv2 : ¬ s.v2 < 0 := by
        intro hv
        have hK1 : 1 ≤ Kv s.m1 (s.v1, s.v2) := Kv_pos hm1 hv
        have : 2 * Kv s.m1 (s.v1, s.v2) ≤ muV s.m1 (s.v1, s.v2) := by
          unfold muV
          rw [if_pos hv]
          exact le_max_left _ _
        omega
      have hv12 : ¬ s.v1 < s.v2 := by
        intro hv
        have : 1 + (if (Bv s.m1 (s.v1, s.v2)).2 < 0 then
            2 * Kv s.m1 (Bv s.m1 (s.v1, s.v2)) else 0) ≤
            muV s.m1 (s.v1, s.v2) := by
          unfold muV
          rw [if_pos hv]
          exact le_max_right _ _
        omega
      have hnone : tNextTime s = none := by
        rw [tNextTime, tWall_of_nonneg (not_lt.mp hv2), tBlock_of_ge (not_lt.mp hv12)]
        rfl
      refine ⟨1, ?_⟩
      by_cases hrem : 0 < rem
      · rw [stepLoop_succ hrem, stepIter_none hnone]
        simp [stepLoop]
      · rw [stepLoop_of_nonpos _ hrem]
        rfl
  | succ N ih =>
      intro s rem hm1 hm2 hμ
      by_cases hrem : 0 < rem
      · cases hnext : tNextTime s with
        | none =>
            refine ⟨1, ?_⟩
            rw [stepLoop_succ hrem, stepIter_none hnext]
            simp [stepLoop]
        | some t =>
            by_cases ht : t ≤ rem
            · by_cases hLT : timeLT (tWall s) (tBlock s) = true
              · -- a wall collision is resolved
                have hv2 : s.v2 < 0 := wall_fired_v2_neg hLT
                set s2 := resolve_wall_collision (advancePos s t) with hs2
                have hm1' : s2.m1 = s.m1 := rfl
                have hm2' : s2.m2 = s.m2 := rfl
                have hvel : (s2.v1, s2.v2) = Wv (s.v1, s.v2) := rfl
                have hμ2 : muV s2.m1 (s2.v1, s2.v2) ≤ N := by
                  rw [hm1', hvel]
                  have := muV_wall_lt hm1 (p := (s.v1, s.v2)) hv2
                  omega
                obtain ⟨n, hn⟩ := ih s2 (rem - t) (hm1' ▸ hm1) (hm2' ▸ hm2) hμ2
                refine ⟨n + 1, ?_⟩
                rw [stepLoop_succ hrem, stepIter_wall hnext ht hLT]
                exact hn
              · -- a block collision is resolved
                have hLTf : timeLT (tWall s) (tBlock s) = false :=
                  Bool.not_eq_true _ ▸ hLT
                have hv12 : s.v1 < s.v2 := block_fired_closing hnext hLTf
                set s2 := resolve_block_collision (advancePos s t) with hs2
                have hm1' : s2.m1 = s.m1 := rfl
                have hm2' : s2.m2 = s.m2 := rfl
                have hvel : (s2.v1, s2.v2) = Bv s.m1 (s.v1, s.v2) := by
                  rw [hs2]
                  rw [resolve_block_velocities (advancePos s t) hm2]
                  rfl
                have hμ2 : muV s2.m1 (s2.v1, s2.v2) ≤ N := by
                  rw [hm1', hvel]
                  have := muV_block_lt hm1 (p := (s.v1, s.v2)) hv12
                  omega
                obtain ⟨n, hn⟩ := ih s2 (rem - t) (hm1' ▸ hm1) (hm2' ▸ hm2) hμ2
                refine ⟨n + 1, ?_⟩
                rw [stepLoop_succ hrem, stepIter_block hnext ht hLTf]
                exact hn
            · refine ⟨1, ?_⟩
              rw [stepLoop_succ hrem, stepIter_far hnext ht]
              simp [stepLoop]
      · refine ⟨0, ?_⟩
        rw [stepLoop_of_nonpos _ hrem]
        rfl

lemma stepLoop_total (s : PhysicsEngine) (rem : ℚ) (hm1 : 0 < s.m1)
    (hm2 : s.m2 = 1) : ∃ n, (stepLoop n s rem).isSome = true :=
  stepLoop_total_aux (muV s.m1 (s.v1, s.v2)) s rem hm1 hm2 le_rfl

lemma step_total (s : PhysicsEngine) (dt : ℚ) (hm1 : 0 < s.m1)
    (hm2 : s.m2 = 1) : ∃ n, (step n s dt).isSome = true := by
  obtain ⟨n, hn⟩ := stepLoop_total s dt hm1 hm2
  refine ⟨n, ?_⟩
  rw [step]
  obtain ⟨L, hL⟩ := Option.isSome_iff_exists.mp hn
  rw [hL]
  rfl

end PhysicsEngine

/-! Concrete states used by the witnesses below. -/

/-- A generic pre-collision state (mass 3, closing velocities). -/
def engA : PhysicsEngine := ⟨3, 1, 400, 200, 150, 50, -2, 5, 0, false⟩

/-- A state satisfying the positional invariants whose gap is exactly zero
while the blocks are still closing. -/
def engGapZero : PhysicsEngine := ⟨1, 1, 60, 10, 150, 50, -1, 0, 0, false⟩

/-- A state where the wall event and the block event fall at the same time
`t = 100`. -/
def engTie : PhysicsEngine := ⟨1, 1, 350, 100, 150, 50, -3, -1, 0, false⟩

/-- A freshly constructed engine at rest. -/
def engRest : PhysicsEngine := PhysicsEngine.init 1 0

/-- The state produced by advancing `engRest` by one time unit. -/
def engRestDone : PhysicsEngine := ⟨1, 1, 400, 200, 150, 50, 0, 0, 0, true⟩

/-- A freshly constructed engine with the large block moving away. -/
def engStart : PhysicsEngine := PhysicsEngine.init 1 1

/-- `engStart` after the terminal check has fired (without any motion). -/
def engStartFin : PhysicsEngine := ⟨1, 1, 400, 200, 150, 50, 1, 0, 0, true⟩

/-- `engStart` advanced by one time unit: reachable and finished. -/
def engFin : PhysicsEngine := ⟨1, 1, 401, 200, 150, 50, 1, 0, 0, true⟩

/-- `engFin` advanced by one further time unit. -/
def engFin2 : PhysicsEngine := ⟨1, 1, 402, 200, 150, 50, 1, 0, 0, true⟩

/-- A finished state with both blocks drifting right. -/
def engDone : PhysicsEngine := ⟨1, 1, 500, 300, 150, 50, 2, 1, 5, true⟩

/-- `engDone` advanced by one time unit. -/
def engDone2 : PhysicsEngine := ⟨1, 1, 502, 301, 150, 50, 2, 1, 5, true⟩

/-- The small block resting exactly at the wall, nothing closing. -/
def engWall : PhysicsEngine := ⟨1, 1, 400, 0, 150, 50, 2, 0, 0, false⟩

/-! The claims. -/

/-- Claim C1: for every state with `massLarge > 0` and `massSmall = 1`, the
block resolution computes both new velocities from the pre-collision values
(no aliasing) and conserves total momentum and total kinetic energy
exactly. -/
theorem claim1_block_resolution_conserves (s : PhysicsEngine)
    (hm1 : 0 < s.m1) (hm2 : s.m2 = 1) :
    (PhysicsEngine.resolve_block_collision s).v1 =
      ((s.m1 - s.m2) * s.v1 + 2 * s.m2 * s.v2) / (s.m1 + s.m2) ∧
    (PhysicsEngine.resolve_block_collision s).v2 =
      ((s.m2 - s.m1) * s.v2 + 2 * s.m1 * s.v1) / (s.m1 + s.m2) ∧
    s.m1 * (PhysicsEngine.resolve_block_collision s).v1 +
        s.m2 * (PhysicsEngine.resolve_block_collision s).v2 =
      s.m1 * s.v1 + s.m2 * s.v2 ∧
    s.m1 * (PhysicsEngine.resolve_block_collision s).v1 ^ 2 +
        s.m2 * (PhysicsEngine.resolve_block_collision s).v2 ^ 2 =
      s.m1 * s.v1 ^ 2 + s.m2 * s.v2 ^ 2 := by
  have hden : s.m1 + s.m2 ≠ 0 := by
    rw [hm2]
    positivity
  refine ⟨rfl, rfl, ?_, ?_⟩
  · show s.m1 * (((s.m1 - s.m2) * s.v1 + 2 * s.m2 * s.v2) / (s.m1 + s.m2)) +
        s.m2 * (((s.m2 - s.m1) * s.v2 + 2 * s.m1 * s.v1) / (s.m1 + s.m2)) =
      s.m1 * s.v1 + s.m2 * s.v2
    field_simp
    ring
  · show s.m1 * (((s.m1 - s.m2) * s.v1 + 2 * s.m2 * s.v2) / (s.m1 + s.m2)) ^ 2 +
        s.m2 * (((s.m2 - s.m1) * s.v2 + 2 * s.m1 * s.v1) / (s.m1 + s.m2)) ^ 2 =
      s.m1 * s.v1 ^ 2 + s.m2 * s.v2 ^ 2
    field_simp
    ring

/-- Witness for C1 at the concrete state `engA`. -/
theorem claim1_witness :
    ((0 : ℚ) < engA.m1 ∧ engA.m2 = 1) ∧
    (engA.m1 * (PhysicsEngine.resolve_block_collision engA).v1 +
        engA.m2 * (PhysicsEngine.resolve_block_collision engA).v2 =
      engA.m1 * engA.v1 + engA.m2 * engA.v2 ∧
    engA.m1 * (PhysicsEngine.resolve_block_collision engA).v1 ^ 2 +
        engA.m2 * (PhysicsEngine.resolve_block_collision engA).v2 ^ 2 =
      engA.m1 * engA.v1 ^ 2 + engA.m2 * engA.v2 ^ 2) :=
  ⟨⟨by with_unfolding_all decide, by with_unfolding_all decide⟩,
    (claim1_block_resolution_conserves engA
      (by with_unfolding_all decide) (by with_unfolding_all decide)).2.2⟩

/-- Claim C2: for every state with `positionSmall >= 0` and
`positionLarge >= positionSmall + widthSmall` and every `dt > 0`, after a
completed `step` call the same two inequalities hold again (no tunneling at
call boundaries). -/
theorem claim2_no_tunneling (fuel : ℕ) (s s' : PhysicsEngine) (dt : ℚ)
    (hx2 : 0 ≤ s.x2) (hgap : s.x2 + s.w2 ≤ s.x1) (hdt : 0 < dt)
    (h : PhysicsEngine.step fuel s dt = some s') :
    0 ≤ s'.x2 ∧ s'.x2 + s'.w2 ≤ s'.x1 := by
  obtain ⟨L, hL, hL'⟩ := Option.map_eq_some'.mp h
  have hIL : PhysicsEngine.Inv L := PhysicsEngine.stepLoop_inv ⟨hx2, hgap⟩ hL
  obtain ⟨_, _, f3, f4, _, f6, _, _, _⟩ := PhysicsEngine.setFinished_fields L
  subst hL'
  rw [f3, f4, f6]
  exact hIL

/-- Witness for C2: advancing a fresh engine at rest by one time unit. -/
theorem claim2_witness :
    ((0 : ℚ) ≤ engRest.x2 ∧ engRest.x2 + engRest.w2 ≤ engRest.x1 ∧
      (0 : ℚ) < 1) ∧
    (0 ≤ engRestDone.x2 ∧ engRestDone.x2 + engRestDone.w2 ≤ engRestDone.x1) :=
  ⟨⟨by with_unfolding_all decide, by with_unfolding_all decide,
      by with_unfolding_all decide⟩,
    claim2_no_tunneling 1 engRest engRestDone 1
      (by with_unfolding_all decide) (by with_unfolding_all decide)
      (by with_unfolding_all decide) (by with_unfolding_all decide)⟩

/-- Counterexample to C3 as stated: `engGapZero` satisfies all the stated
preconditions (`positionSmall ≥ 0`, `positionLarge ≥ positionSmall +
widthSmall`, `massLarge > 0`), yet the very first loop iteration of a
`step 1`-call resolves a collision whose event time `tNext` is `0`, not
strictly positive. -/
theorem claim3_counterexample :
    (0 ≤ engGapZero.x2 ∧ engGapZero.x2 + engGapZero.w2 ≤ engGapZero.x1 ∧
      0 < engGapZero.m1) ∧
    PhysicsEngine.tNextTime engGapZero = some 0 ∧
    (PhysicsEngine.stepIter engGapZero 1).1.collisions =
      engGapZero.collisions + 1 := by
  with_unfolding_all decide

/-- Claim C3 (amended): for every valid state (`positionSmall ≥ 0`,
`positionLarge ≥ positionSmall + widthSmall`, `massLarge > 0`, and the fixed
small mass `1`) and every `dt`, the collision loop of `step` terminates after
finitely many iterations (some finite fuel suffices), and the time `tNext` to
any resolved event is non-negative — it is `0` rather than strictly positive
exactly when the small block already touches the wall or the blocks already
touch each other. -/
theorem claim3_terminates (s : PhysicsEngine) (dt : ℚ)
    (hm1 : 0 < s.m1) (hm2 : s.m2 = 1)
    (hx2 : 0 ≤ s.x2) (hgap : s.x2 + s.w2 ≤ s.x1) :
    (∃ n, (PhysicsEngine.step n s dt).isSome = true) ∧
    (∀ t, PhysicsEngine.tNextTime s = some t → 0 ≤ t) :=
  ⟨PhysicsEngine.step_total s dt hm1 hm2,
    fun _ ht => PhysicsEngine.tNext_nonneg ⟨hx2, hgap⟩ ht⟩

/-- Witness for the amended C3 at a freshly constructed engine with mass
`100` and initial velocity `-100`. -/
theorem claim3_witness :
    ((0 : ℚ) < (PhysicsEngine.init 100 (-100)).m1 ∧
      (PhysicsEngine.init 100 (-100)).m2 = 1 ∧
      (0 : ℚ) ≤ (PhysicsEngine.init 100 (-100)).x2 ∧
      (PhysicsEngine.init 100 (-100)).x2 + (PhysicsEngine.init 100 (-100)).w2 ≤
        (PhysicsEngine.init 100 (-100)).x1) ∧
    ((∃ n, (PhysicsEngine.step n (PhysicsEngine.init 100 (-100)) 1).isSome = true) ∧
      (∀ t, PhysicsEngine.tNextTime (PhysicsEngine.init 100 (-100)) = some t →
        0 ≤ t)) :=
  ⟨⟨by with_unfolding_all decide, by with_unfolding_all decide,
      by with_unfolding_all decide, by with_unfolding_all decide⟩,
    claim3_terminates (PhysicsEngine.init 100 (-100)) 1
      (by with_unfolding_all decide) (by with_unfolding_all decide)
      (by with_unfolding_all decide) (by with_unfolding_all decide)⟩

/-- Counterexample to C4 as stated: `step` with `dt = 0 ≤ 0` neither fails
nor leaves every field unchanged — the terminal check still runs and flips
`finished` from `false` to `true` on `engStart`. -/
theorem claim4_counterexample :
    engStart.finished = false ∧
    PhysicsEngine.step 1 engStart 0 = some engStartFin ∧
    engStartFin.finished = true := by
  with_unfolding_all decide

/-- Claim C4 (amended): for every `dt ≤ 0`, `step` performs no loop
iteration — positions, velocities and the collision count are returned
unchanged — but it is not a complete no-op: the terminal predicate is still
evaluated, so `finished` may change from `false` to `true` (it is set exactly
when it was already set or the terminal condition holds). -/
theorem claim4_nonpos_dt (fuel : ℕ) (s s' : PhysicsEngine) (dt : ℚ)
    (hdt : dt ≤ 0) (h : PhysicsEngine.step fuel s dt = some s') :
    s'.x1 = s.x1 ∧ s'.x2 = s.x2 ∧ s'.v1 = s.v1 ∧ s'.v2 = s.v2 ∧
    s'.collisions = s.collisions ∧
    (s'.finished = true ↔ (s.finished = true ∨ PhysicsEngine.Receding s)) := by
  rw [PhysicsEngine.step,
    PhysicsEngine.stepLoop_of_nonpos fuel (not_lt.mpr hdt)] at h
  have hs' : s' = PhysicsEngine.setFinished s := (Option.some_inj.mp h).symm
  obtain ⟨_, _, f3, f4, _, _, f7, f8, f9⟩ := PhysicsEngine.setFinished_fields s
  subst hs'
  exact ⟨f3, f4, f7, f8, f9, PhysicsEngine.setFinished_finished s⟩

/-- Witness for the amended C4 on `engStart` with `dt = 0`. -/
theorem claim4_witness :
    ((0 : ℚ) ≤ 0) ∧
    (engStartFin.x1 = engStart.x1 ∧ engStartFin.x2 = engStart.x2 ∧
      engStartFin.v1 = engStart.v1 ∧ engStartFin.v2 = engStart.v2 ∧
      engStartFin.collisions = engStart.collisions ∧
      (engStartFin.finished = true ↔
        (engStart.finished = true ∨ PhysicsEngine.Receding engStart))) :=
  ⟨by with_unfolding_all decide,
    claim4_nonpos_dt 1 engStart engStartFin 0
      (by with_unfolding_all decide) (by with_unfolding_all decide)⟩

/-- Claim C5: construction (as performed by `reset_simulation`) fails for
every `massLarge ≤ 0`, and for every `massLarge > 0` and any initial
velocity it succeeds with `velocitySmall = 0`, `collisionCount = 0`,
`finished = false` and the large block strictly to the right of the small
one (`positionLarge > positionSmall + widthSmall`). -/
theorem claim5_construction (m v : ℚ) :
    (m ≤ 0 → PhysicsEngine.createEngine m v = none) ∧
    (0 < m → PhysicsEngine.createEngine m v = some (PhysicsEngine.init m v) ∧
      (PhysicsEngine.init m v).v2 = 0 ∧
      (PhysicsEngine.init m v).collisions = 0 ∧
      (PhysicsEngine.init m v).finished = false ∧
      (PhysicsEngine.init m v).x2 + (PhysicsEngine.init m v).w2 <
        (PhysicsEngine.init m v).x1) := by
  constructor
  · intro h
    rw [PhysicsEngine.createEngine, if_pos h]
  · intro h
    refine ⟨?_, rfl, rfl, rfl, ?_⟩
    · rw [PhysicsEngine.createEngine, if_neg (not_le.mpr h)]
    · show (200 : ℚ) + 50 < 400
      norm_num

/-- Witness for C5: construction fails at mass `-5` and succeeds at mass
`100`. -/
theorem claim5_witness :
    PhysicsEngine.createEngine (-5) 7 = none ∧
    (PhysicsEngine.createEngine 100 (-100) =
        some (PhysicsEngine.init 100 (-100)) ∧
      (PhysicsEngine.init 100 (-100)).v2 = 0 ∧
      (PhysicsEngine.init 100 (-100)).collisions = 0 ∧
      (PhysicsEngine.init 100 (-100)).finished = false ∧
      (PhysicsEngine.init 100 (-100)).x2 + (PhysicsEngine.init 100 (-100)).w2 <
        (PhysicsEngine.init 100 (-100)).x1) :=
  ⟨(claim5_construction (-5) 7).1 (by with_unfolding_all decide),
    (claim5_construction 100 (-100)).2 (by with_unfolding_all decide)⟩

/-- Claim C6: inside a `step` iteration, when the wall time and the block
time are exactly equal (and the event falls within the remaining time), the
block resolution is applied, not the wall resolution: block resolution wins
ties. -/
theorem claim6_tie_break (s : PhysicsEngine) (t rem : ℚ)
    (hw : PhysicsEngine.tWall s = some t) (hb : PhysicsEngine.tBlock s = some t)
    (ht : t ≤ rem) :
    PhysicsEngine.stepIter s rem =
      (PhysicsEngine.resolve_block_collision (PhysicsEngine.advancePos s t),
        rem - t) := by
  have hnext : PhysicsEngine.tNextTime s = some t := by
    rw [PhysicsEngine.tNextTime, hw, hb]
    simp [PhysicsEngine.timeMin]
  have hLT : PhysicsEngine.timeLT (PhysicsEngine.tWall s)
      (PhysicsEngine.tBlock s) = false := by
    rw [hw, hb]
    simp [PhysicsEngine.timeLT]
  exact PhysicsEngine.stepIter_block hnext ht hLT

/-- Witness for C6 at the exact-tie state `engTie` (both events at
`t = 100`). -/
theorem claim6_witness :
    (PhysicsEngine.tWall engTie = some 100 ∧
      PhysicsEngine.tBlock engTie = some 100 ∧ (100 : ℚ) ≤ 150) ∧
    PhysicsEngine.stepIter engTie 150 =
      (PhysicsEngine.resolve_block_collision
        (PhysicsEngine.advancePos engTie 100), 150 - 100) :=
  ⟨⟨by with_unfolding_all decide, by with_unfolding_all decide,
      by with_unfolding_all decide⟩,
    claim6_tie_break engTie 100 150
      (by with_unfolding_all decide) (by with_unfolding_all decide)
      (by with_unfolding_all decide)⟩

/-- Claim C7: once `finished` is `true`, every completed `step` call leaves
it `true`; the flag never reverts to `false`. -/
theorem claim7_finished_stable (fuel : ℕ) (s s' : PhysicsEngine) (dt : ℚ)
    (hf : s.finished = true) (h : PhysicsEngine.step fuel s dt = some s') :
    s'.finished = true := by
  obtain ⟨L, hL, hL'⟩ := Option.map_eq_some'.mp h
  obtain ⟨_, _, _, _, c5⟩ := PhysicsEngine.stepLoop_const hL
  subst hL'
  exact (PhysicsEngine.setFinished_finished L).mpr (Or.inl (c5.trans hf))

/-- Witness for C7: stepping the finished state `engDone`. -/
theorem claim7_witness :
    engDone.finished = true ∧ engDone2.finished = true :=
  ⟨by with_unfolding_all decide,
    claim7_finished_stable 1 engDone engDone2 1
      (by with_unfolding_all decide) (by with_unfolding_all decide)⟩

/-- Claim C8: in every reachable state with `finished = true`, a further
completed `step` call resolves no collision: both velocities and the
collision count are unchanged (only the positions may drift). -/
theorem claim8_no_collision_after_finished (fuel : ℕ) (s s' : PhysicsEngine)
    (dt : ℚ) (hreach : PhysicsEngine.Reachable s) (hf : s.finished = true)
    (h : PhysicsEngine.step fuel s dt = some s') :
    s'.v1 = s.v1 ∧ s'.v2 = s.v2 ∧ s'.collisions = s.collisions := by
  have hR : PhysicsEngine.Receding s :=
    (PhysicsEngine.reachable_facts hreach).2.2 hf
  obtain ⟨L, hL, hL'⟩ := Option.map_eq_some'.mp h
  obtain ⟨a1, a2, a3, _⟩ := PhysicsEngine.stepLoop_receding hR hL
  obtain ⟨_, _, _, _, _, _, f7, f8, f9⟩ := PhysicsEngine.setFinished_fields L
  subst hL'
  exact ⟨f7.trans a1, f8.trans a2, f9.trans a3⟩

/-- Witness for C8: `engFin` is reachable (fresh engine of mass 1 and
velocity 1, advanced once), is finished, and a further step changes neither
velocities nor the collision count. -/
theorem claim8_witness :
    engFin.finished = true ∧
    (engFin2.v1 = engFin.v1 ∧ engFin2.v2 = engFin.v2 ∧
      engFin2.collisions = engFin.collisions) :=
  ⟨by with_unfolding_all decide,
    claim8_no_collision_after_finished 1 engFin engFin2 1
      (PhysicsEngine.Reachable.advanced (PhysicsEngine.init 1 1) 1 1 engFin
        (PhysicsEngine.Reachable.created 1 1 (by with_unfolding_all decide))
        (by with_unfolding_all decide))
      (by with_unfolding_all decide) (by with_unfolding_all decide)⟩

/-- Claim C9: in every loop iteration, `velocitySmall ≥ 0` forces
`tWall = +infinity` and `velocityLarge ≥ velocitySmall` forces
`tBlock = +infinity`; under the strict guards the divisors `|velocitySmall|`
and `velocitySmall - velocityLarge` are non-zero, so no division by zero can
occur, and when both events are at infinity no collision is registered. -/
theorem claim9_guards (s : PhysicsEngine) (rem : ℚ) :
    (0 ≤ s.v2 → PhysicsEngine.tWall s = none) ∧
    (s.v2 ≤ s.v1 → PhysicsEngine.tBlock s = none) ∧
    (s.v2 < 0 → |s.v2| ≠ 0) ∧
    (s.v1 < s.v2 → s.v2 - s.v1 ≠ 0) ∧
    (0 ≤ s.v2 → s.v2 ≤ s.v1 →
      (PhysicsEngine.stepIter s rem).1.collisions = s.collisions) := by
  refine ⟨PhysicsEngine.tWall_of_nonneg, PhysicsEngine.tBlock_of_ge,
    fun h => abs_ne_zero.mpr (ne_of_lt h),
    fun h => sub_ne_zero.mpr (ne_of_gt h),
    fun h1 h2 => ?_⟩
  have hnone : PhysicsEngine.tNextTime s = none := by
    rw [PhysicsEngine.tNextTime, PhysicsEngine.tWall_of_nonneg h1,
      PhysicsEngine.tBlock_of_ge h2]
    rfl
  rw [PhysicsEngine.stepIter_none hnone]
  rfl

/-- Witness for C9 at `engWall`: the small block rests exactly at the wall
with `velocitySmall = 0`; both event times are infinite and no collision is
counted. -/
theorem claim9_witness :
    PhysicsEngine.tWall engWall = none ∧
    PhysicsEngine.tBlock engWall = none ∧
    (PhysicsEngine.stepIter engWall 1).1.collisions = engWall.collisions :=
  ⟨(claim9_guards engWall 1).1 (by with_unfolding_all decide),
    (claim9_guards engWall 1).2.1 (by with_unfolding_all decide),
    (claim9_guards engWall 1).2.2.2.2 (by with_unfolding_all decide)
      (by with_unfolding_all decide)⟩

/-- Claim C10: for every state with `massLarge > 0` and `massSmall = 1`, the
block resolution reverses the relative velocity exactly
(`v1' - v2' = -(u1 - u2)`); hence under the collision guard `u1 < u2` the
blocks strictly separate afterwards (`v1' > v2'`), so an immediate second
block collision is impossible. -/
theorem claim10_relative_velocity_reversal (s : PhysicsEngine)
    (hm1 : 0 < s.m1) (hm2 : s.m2 = 1) :
    (PhysicsEngine.resolve_block_collision s).v1 -
        (PhysicsEngine.resolve_block_collision s).v2 = -(s.v1 - s.v2) ∧
    (s.v1 < s.v2 →
      (PhysicsEngine.resolve_block_collision s).v2 <
        (PhysicsEngine.resolve_block_collision s).v1) := by
  have hpair := resolve_block_velocities s hm2
  have h1 : (PhysicsEngine.resolve_block_collision s).v1 =
      (Bv s.m1 (s.v1, s.v2)).1 := congrArg Prod.fst hpair
  have h2 : (PhysicsEngine.resolve_block_collision s).v2 =
      (Bv s.m1 (s.v1, s.v2)).2 := congrArg Prod.snd hpair
  have hrev := Bv_reverses hm1 (s.v1, s.v2)
  constructor
  · rw [h1, h2, hrev]
    ring
  · intro hlt
    rw [h1, h2]
    have : (Bv s.m1 (s.v1, s.v2)).1 - (Bv s.m1 (s.v1, s.v2)).2 =
        s.v2 - s.v1 := hrev
    linarith

/-- Witness for C10 at the concrete state `engA`. -/
theorem claim10_witness :
    ((0 : ℚ) < engA.m1 ∧ engA.m2 = 1 ∧ engA.v1 < engA.v2) ∧
    ((PhysicsEngine.resolve_block_collision engA).v1 -
        (PhysicsEngine.resolve_block_collision engA).v2 =
      -(engA.v1 - engA.v2) ∧
    (PhysicsEngine.resolve_block_collision engA).v2 <
      (PhysicsEngine.resolve_block_collision engA).v1) :=
  ⟨⟨by with_unfolding_all decide, by with_unfolding_all decide,
      by with_unfolding_all decide⟩,
    (claim10_relative_velocity_reversal engA
        (by with_unfolding_all decide) (by with_unfolding_all decide)).1,
    (claim10_relative_velocity_reversal engA
        (by with_unfolding_all decide) (by with_unfolding_all decide)).2
      (by with_unfolding_all decide)⟩
